import Mathlib

/-!
Shallow embedding of the `raytracer` repository (files `src/main.rs`,
`src/ray.rs`, `src/color.rs`) and proofs about it.

`f32` arithmetic is idealised as real arithmetic.  `nalgebra`'s
`Vector3<f32>` and `Point3<f32>` are both modelled by the coordinate
triple `Vec3` (the code only uses componentwise add/sub, scalar multiply,
dot, norm and normalize on them).  Randomness (`rand::rngs::ThreadRng`)
is modelled by explicit streams of raw sample vectors: each call to
`random_unit_vector` consumes one raw vector from the stream and
normalizes it, exactly as the Rust function draws three components in
[-1, 1) and normalizes.
-/

noncomputable section

namespace Raytracer

/-- 3D coordinate triple over the reals, modelling `na::Vector3<f32>` and
`na::Point3<f32>`. -/
@[ext]
structure Vec3 where
  x : ℝ
  y : ℝ
  z : ℝ

instance : Zero Vec3 := ⟨⟨0, 0, 0⟩⟩

instance : Add Vec3 := ⟨fun a b => ⟨a.x + b.x, a.y + b.y, a.z + b.z⟩⟩

instance : Sub Vec3 := ⟨fun a b => ⟨a.x - b.x, a.y - b.y, a.z - b.z⟩⟩

instance : SMul ℝ Vec3 := ⟨fun k v => ⟨k * v.x, k * v.y, k * v.z⟩⟩

@[simp] theorem Vec3.zero_x : (0 : Vec3).x = 0 := rfl

@[simp] theorem Vec3.zero_y : (0 : Vec3).y = 0 := rfl

@[simp] theorem Vec3.zero_z : (0 : Vec3).z = 0 := rfl

@[simp] theorem Vec3.add_x (a b : Vec3) : (a + b).x = a.x + b.x := rfl

@[simp] theorem Vec3.add_y (a b : Vec3) : (a + b).y = a.y + b.y := rfl

@[simp] theorem Vec3.add_z (a b : Vec3) : (a + b).z = a.z + b.z := rfl

@[simp] theorem Vec3.sub_x (a b : Vec3) : (a - b).x = a.x - b.x := rfl

@[simp] theorem Vec3.sub_y (a b : Vec3) : (a - b).y = a.y - b.y := rfl

@[simp] theorem Vec3.sub_z (a b : Vec3) : (a - b).z = a.z - b.z := rfl

@[simp] theorem Vec3.smul_x (k : ℝ) (v : Vec3) : (k • v).x = k * v.x := rfl

@[simp] theorem Vec3.smul_y (k : ℝ) (v : Vec3) : (k • v).y = k * v.y := rfl

@[simp] theorem Vec3.smul_z (k : ℝ) (v : Vec3) : (k • v).z = k * v.z := rfl

@[simp] theorem Vec3.mk_x (a b c : ℝ) : (Vec3.mk a b c).x = a := rfl

@[simp] theorem Vec3.mk_y (a b c : ℝ) : (Vec3.mk a b c).y = b := rfl

@[simp] theorem Vec3.mk_z (a b c : ℝ) : (Vec3.mk a b c).z = c := rfl

/-- `nalgebra`'s dot product. -/
def Vec3.dot (a b : Vec3) : ℝ := a.x * b.x + a.y * b.y + a.z * b.z

/-- `nalgebra`'s Euclidean `norm`. -/
def Vec3.norm (v : Vec3) : ℝ := Real.sqrt (Vec3.dot v v)

/-- `nalgebra`'s `normalize`: the vector divided by its norm. -/
def Vec3.normalize (v : Vec3) : Vec3 := (Vec3.norm v)⁻¹ • v

theorem Vec3.dot_comm (a b : Vec3) : Vec3.dot a b = Vec3.dot b a := by
  simp only [Vec3.dot]; ring

theorem Vec3.dot_self_nonneg (v : Vec3) : 0 ≤ Vec3.dot v v := by
  simp only [Vec3.dot]
  nlinarith [sq_nonneg v.x, sq_nonneg v.y, sq_nonneg v.z]

theorem Vec3.norm_nonneg (v : Vec3) : 0 ≤ Vec3.norm v := Real.sqrt_nonneg _

theorem Vec3.sq_norm (v : Vec3) : (Vec3.norm v) ^ 2 = Vec3.dot v v :=
  Real.sq_sqrt (Vec3.dot_self_nonneg v)

theorem Vec3.dot_self_eq_zero_iff (v : Vec3) : Vec3.dot v v = 0 ↔ v = 0 := by
  constructor
  · intro h
    simp only [Vec3.dot] at h
    ext <;> simp <;> nlinarith [sq_nonneg v.x, sq_nonneg v.y, sq_nonneg v.z]
  · intro h; subst h; simp [Vec3.dot]

theorem Vec3.norm_pos_of_ne_zero {v : Vec3} (h : v ≠ 0) : 0 < Vec3.norm v := by
  have hd : 0 < Vec3.dot v v := by
    rcases lt_or_eq_of_le (Vec3.dot_self_nonneg v) with h' | h'
    · exact h'
    · exact absurd ((Vec3.dot_self_eq_zero_iff v).mp h'.symm) h
  exact Real.sqrt_pos.mpr hd

/-- The norm of a normalized nonzero vector is 1. -/
theorem Vec3.norm_normalize {v : Vec3} (h : v ≠ 0) :
    Vec3.norm (Vec3.normalize v) = 1 := by
  have hn : 0 < Vec3.norm v := Vec3.norm_pos_of_ne_zero h
  have hdot : Vec3.dot (Vec3.normalize v) (Vec3.normalize v)
      = ((Vec3.norm v)⁻¹) ^ 2 * Vec3.dot v v := by
    simp only [Vec3.normalize, Vec3.dot, Vec3.smul_x, Vec3.smul_y, Vec3.smul_z]
    ring
  have h1 : ((Vec3.norm v)⁻¹) ^ 2 * Vec3.dot v v = 1 := by
    rw [← Vec3.sq_norm v]
    field_simp
  unfold Vec3.norm
  rw [hdot, h1, Real.sqrt_one]

/-- RGB colour triple (`color.rs`), channel values idealised as reals. -/
@[ext]
structure Color where
  red : ℝ
  green : ℝ
  blue : ℝ

/-- `impl ops::Add for Color`: componentwise addition. -/
instance : Add Color := ⟨fun a b => ⟨a.red + b.red, a.green + b.green, a.blue + b.blue⟩⟩

/-- `impl ops::Mul<Color> for Color`: componentwise multiplication. -/
instance : Mul Color := ⟨fun a b => ⟨a.red * b.red, a.green * b.green, a.blue * b.blue⟩⟩

/-- `impl ops::Mul<Color> for f32`: scalar times colour. -/
instance : SMul ℝ Color := ⟨fun k c => ⟨c.red * k, c.green * k, c.blue * k⟩⟩

/-- `impl ops::Div<f32> for Color`: componentwise division by a scalar. -/
instance : HDiv Color ℝ Color := ⟨fun c k => ⟨c.red / k, c.green / k, c.blue / k⟩⟩

instance : Zero Color := ⟨⟨0, 0, 0⟩⟩

@[simp] theorem Color.mk_red (a b c : ℝ) : (Color.mk a b c).red = a := rfl

@[simp] theorem Color.mk_green (a b c : ℝ) : (Color.mk a b c).green = b := rfl

@[simp] theorem Color.mk_blue (a b c : ℝ) : (Color.mk a b c).blue = c := rfl

@[simp] theorem Color.add_red (a b : Color) : (a + b).red = a.red + b.red := rfl

@[simp] theorem Color.add_green (a b : Color) : (a + b).green = a.green + b.green := rfl

@[simp] theorem Color.add_blue (a b : Color) : (a + b).blue = a.blue + b.blue := rfl

@[simp] theorem Color.mul_red (a b : Color) : (a * b).red = a.red * b.red := rfl

@[simp] theorem Color.mul_green (a b : Color) : (a * b).green = a.green * b.green := rfl

@[simp] theorem Color.mul_blue (a b : Color) : (a * b).blue = a.blue * b.blue := rfl

@[simp] theorem Color.smul_red (k : ℝ) (c : Color) : (k • c).red = c.red * k := rfl

@[simp] theorem Color.smul_green (k : ℝ) (c : Color) : (k • c).green = c.green * k := rfl

@[simp] theorem Color.smul_blue (k : ℝ) (c : Color) : (k • c).blue = c.blue * k := rfl

@[simp] theorem Color.div_red (c : Color) (k : ℝ) : (c / k).red = c.red / k := rfl

@[simp] theorem Color.div_green (c : Color) (k : ℝ) : (c / k).green = c.green / k := rfl

@[simp] theorem Color.div_blue (c : Color) (k : ℝ) : (c / k).blue = c.blue / k := rfl

@[simp] theorem Color.zero_red : (0 : Color).red = 0 := rfl

@[simp] theorem Color.zero_green : (0 : Color).green = 0 := rfl

@[simp] theorem Color.zero_blue : (0 : Color).blue = 0 := rfl

/-- `Color::clamp`: each channel strictly above 1.0 is set to 1.0, all
other channels are left unchanged. -/
def Color.clamp (c : Color) : Color :=
  ⟨if 1 < c.red then 1 else c.red,
   if 1 < c.green then 1 else c.green,
   if 1 < c.blue then 1 else c.blue⟩

/-- `Color::gamma_correction`: square root of every channel. -/
def Color.gamma_correction (c : Color) : Color :=
  ⟨Real.sqrt c.red, Real.sqrt c.green, Real.sqrt c.blue⟩

/-- Rust's saturating `f32 as u8` conversion applied to `u8::MAX * channel`
(`impl fmt::Display for Color`): the float is truncated to an integer and
saturated into `[0, 255]`.  On the saturated range truncation toward zero
agrees with the floor used here: any value in `(-1, 0)` truncates to 0 and
floors to `-1`, and both are mapped to 0 by the saturation. -/
def toByte (v : ℝ) : ℤ := min 255 (max 0 ⌊(255 : ℝ) * v⌋)

/-- The three integers written for one pixel by `impl fmt::Display for Color`
(space separated in the actual file). -/
def displayC (c : Color) : ℤ × ℤ × ℤ := (toByte c.red, toByte c.green, toByte c.blue)

/-- `ray.rs`: a ray is an origin point together with a direction vector. -/
structure Ray where
  orig : Vec3
  direction : Vec3

/-- `Ray::new`: stores the origin as given and the direction normalized. -/
def Ray.new (origin dir : Vec3) : Ray := ⟨origin, Vec3.normalize dir⟩

/-- `Ray::at`: translation of the origin by `length * direction`, i.e.
`origin + length * direction`. -/
def Ray.at (r : Ray) (length : ℝ) : Vec3 := r.orig + length • r.direction

/-- `enum MaterialType`. -/
inductive MaterialType where
  | Lambertian : MaterialType
  | Metal : ℝ → MaterialType

/-- `struct Material`. -/
structure Material where
  material_type : MaterialType
  color : Color

/-- `random_unit_vector`: draw a raw sample vector (components uniform in
[-1, 1)) and normalize it.  The raw draw is the explicit argument. -/
def random_unit_vector (raw : Vec3) : Vec3 := Vec3.normalize raw

/-- `scatter`: produce the next ray from a hit.  The raw random sample
consumed by `random_unit_vector` is the explicit first argument. -/
def scatter (raw : Vec3) (in_ray : Ray) (intersection_pt : Vec3)
    (normal_vec : Vec3) (material : Material) : Ray :=
  match material.material_type with
  | MaterialType.Lambertian =>
      Ray.new intersection_pt (random_unit_vector raw + normal_vec)
  | MaterialType.Metal fuzziness =>
      Ray.new intersection_pt
        (in_ray.direction - (2 * Vec3.dot normal_vec in_ray.direction) • normal_vec
          + fuzziness • random_unit_vector raw)

/-- `struct Sphere` (the only `Object` implementation in the repository). -/
structure Sphere where
  centre : Vec3
  radius : ℝ
  material : Material

/-- `Sphere::intersect` (`impl Object for Sphere`). -/
def Sphere.intersect (s : Sphere) (ray : Ray) : Option ℝ :=
  let oc := ray.orig - s.centre
  let c := (Vec3.norm oc) ^ 2 - s.radius ^ 2
  let half_b := Vec3.dot oc ray.direction
  let determinant := half_b ^ 2 - c
  if determinant < 0 then none
  else
    let val := -half_b - Real.sqrt determinant
    if 0 ≤ val then some val else none

/-- `Sphere::normal`. -/
def Sphere.normal (s : Sphere) (pt : Vec3) : Vec3 := Vec3.normalize (pt - s.centre)

/-- `Sphere::get_color`. -/
def Sphere.get_color (s : Sphere) : Color := s.material.color

/-- `Sphere::get_material`. -/
def Sphere.get_material (s : Sphere) : Material := s.material

/-- One update of the mutable pair `(nearest_obj, tmin)` in
`nearest_intersection`, for an object `o` whose `intersect` returned
`Some t`: the pair is replaced when `tmin.is_none() || t < tmin.unwrap()`. -/
def updateBest (o : Sphere) (t : ℝ) :
    Option Sphere × Option ℝ → Option Sphere × Option ℝ
  | (_, none) => (some o, some t)
  | (best, some tm) => if t < tm then (some o, some t) else (best, some tm)

/-- The `for o in objs` loop of `nearest_intersection`, threading the
mutable pair `(nearest_obj, tmin)`. -/
def scanLoop (ray : Ray) : List Sphere → Option Sphere × Option ℝ →
    Option Sphere × Option ℝ
  | [], acc => acc
  | o :: rest, acc =>
      scanLoop ray rest
        (match Sphere.intersect o ray with
         | some t => updateBest o t acc
         | none => acc)

/-- `nearest_intersection`: linear scan, then package the winning hit as
`(hit point, normal at that point, object)`. -/
def nearest_intersection (ray : Ray) (objs : List Sphere) :
    Option (Vec3 × Vec3 × Sphere) :=
  match scanLoop ray objs (none, none) with
  | (some o, some t) => some (Ray.at ray t, Sphere.normal o (Ray.at ray t), o)
  | _ => none

/-- `max_depth` in the `ray_color` closure of `raytracing`. -/
def max_depth : ℕ := 20

/-- The `for _ in 0..max_depth` bounce loop of the `ray_color` closure in
`raytracing`: state is (current ray, count, accumulated colour); `fuel` is
the number of remaining loop iterations and `i` the cursor into the random
stream (one raw vector consumed per scatter). -/
def bounceLoop (objs : List Sphere) (rnd : ℕ → Vec3) :
    ℕ → ℕ → Ray → ℕ → Color → Ray × ℕ × Color
  | 0, _, r, cnt, col => (r, cnt, col)
  | fuel + 1, i, r, cnt, col =>
      match nearest_intersection r objs with
      | some (intersect_pt, normal_vec, nearest_obj) =>
          bounceLoop objs rnd fuel (i + 1)
            (scatter (rnd i) r intersect_pt normal_vec
              (Sphere.get_material nearest_obj))
            (cnt + 1) (col * Sphere.get_color nearest_obj)
      | none => (r, cnt, col)

/-- The `ray_color` closure passed by `raytracing` to `raytracing_ppm`:
run the bounce loop from the primary ray with white accumulator, then
either return black (when `count == max_depth + 1`) or the accumulated
colour times the vertical background gradient of the final ray. -/
def ray_color (objs : List Sphere) (rnd : ℕ → Vec3) (r : Ray) : Color :=
  let res := bounceLoop objs rnd max_depth 0 r 0 (Color.mk 1 1 1)
  if res.2.1 = max_depth + 1 then Color.mk 0 0 0
  else
    let t := 0.5 * (res.1.direction.y + 1.0)
    res.2.2 * ((1 - t) • Color.mk 1 1 1 + t • Color.mk 0.5 0.7 1)

/-- `impl ops::Div` style division of a vector by a scalar
(used for `vertical / 2.0` and `horizontal / 2.0` in `raytracing_ppm`). -/
instance : HDiv Vec3 ℝ Vec3 := ⟨fun v k => ⟨v.x / k, v.y / k, v.z / k⟩⟩

@[simp] theorem Vec3.div_x (v : Vec3) (k : ℝ) : (v / k).x = v.x / k := rfl

@[simp] theorem Vec3.div_y (v : Vec3) (k : ℝ) : (v / k).y = v.y / k := rfl

@[simp] theorem Vec3.div_z (v : Vec3) (k : ℝ) : (v / k).z = v.z / k := rfl

/-- `samples_per_pixel` in `raytracing_ppm`. -/
def samples_per_pixel : ℕ := 500

/-- `img_width = (img_height as f32 * aspect) as u32`: the `as u32` cast
truncates toward zero and saturates negatives to zero, which on this range
is floor followed by `toNat`. -/
def imgWidth (aspect : ℝ) (img_height : ℕ) : ℕ :=
  (⌊(img_height : ℝ) * aspect⌋).toNat

/-- `(0..img_height).rev().cartesian_product(0..img_width)`: the pixel
coordinates `(row, column)` in the order they are rendered and written,
rows from `img_height - 1` down to `0`, columns from `0` up. -/
def rasterCoords (h w : ℕ) : List (ℕ × ℕ) :=
  ((List.range h).reverse).flatMap (fun row => (List.range w).map (fun c => (row, c)))

/-- The primary camera ray for pixel `p = (row, col)` with per-sample
jitter `(r_u, r_v)`, as built inside the sampling loop of
`raytracing_ppm`. -/
def primaryRay (aspect vh : ℝ) (w h : ℕ) (p : ℕ × ℕ) (jitter : ℝ × ℝ) : Ray :=
  let viewport_width : ℝ := vh * aspect
  let focal_length : ℝ := 1.0
  let origin : Vec3 := ⟨0.0, 0.0, 0.0⟩
  let vertical : Vec3 := vh • (⟨0, 1, 0⟩ : Vec3)
  let horizontal : Vec3 := viewport_width • (⟨1, 0, 0⟩ : Vec3)
  let lower_left_corner : Vec3 :=
    (⟨0.0, 0.0, 0.0⟩ : Vec3) - vertical / (2 : ℝ) - horizontal / (2 : ℝ)
      - focal_length • (⟨0, 0, 1⟩ : Vec3)
  let u : ℝ := ((p.2 : ℝ) + jitter.1) / ((w : ℝ) - 1)
  let v : ℝ := ((p.1 : ℝ) + jitter.2) / ((h : ℝ) - 1)
  Ray.new origin (lower_left_corner + u • horizontal + v • vertical - origin)

/-- The per-pixel sampling loop of `raytracing_ppm`: accumulate
`samples_per_pixel` traced sample colours starting from `(0,0,0)`, then
divide by the sample count.  `jit s` is the pair of uniform jitters drawn
for sample `s`. -/
def pixelColor (ray_color_fn : Ray → Color) (jit : ℕ → ℝ × ℝ)
    (aspect vh : ℝ) (w h : ℕ) (p : ℕ × ℕ) : Color :=
  (((List.range samples_per_pixel).map (fun s =>
      ray_color_fn (primaryRay aspect vh w h p (jit s)))).foldl
    (fun a b => a + b) (Color.mk 0.0 0.0 0.0)) / (samples_per_pixel : ℝ)

/-- The plain-text pixel grid written by `raytracing_ppm`: the header
tokens (`P3`, width, height, maximum channel value) and one integer
triple per pixel line, in the order the lines appear in the file. -/
structure PPMFile where
  magic : String
  width : ℕ
  height : ℕ
  maxval : ℕ
  pixels : List (ℤ × ℤ × ℤ)

/-- `raytracing_ppm`: compute the width, render every pixel in raster
order, average the samples, then gamma-correct, clamp and convert each
pixel to its displayed integer triple.  The per-sample colour function and
the jitter streams are parameters (they model the `ray_color` closure and
the thread-local RNG draws). -/
def raytracing_ppm (aspect : ℝ) (img_height : ℕ) (viewport_height : ℝ)
    (ray_color_fn : Ray → Color) (jit : ℕ × ℕ → ℕ → ℝ × ℝ) : PPMFile :=
  let img_width := imgWidth aspect img_height
  { magic := "P3"
    width := img_width
    height := img_height
    maxval := 255
    pixels := (rasterCoords img_height img_width).map (fun p =>
      displayC (Color.clamp (Color.gamma_correction
        (pixelColor ray_color_fn (jit p) aspect viewport_height
          img_width img_height p)))) }

/-- Sphere intersection written exactly as the specification words it:
discriminant `(oc·direction)² − (|oc|² − r²)`; `None` on a negative
discriminant; otherwise the nearest root `t = −half_b − sqrt(discriminant)`
and `Some t` exactly when `t ≥ 0`.  Compared against `Sphere.intersect`,
which is translated from the source. -/
def sphereIntersectSpec (s : Sphere) (r : Ray) : Option ℝ :=
  let oc := r.orig - s.centre
  let half_b := Vec3.dot oc r.direction
  let discriminant := half_b ^ 2 - (Vec3.dot oc oc - s.radius ^ 2)
  if discriminant < 0 then none
  else
    let t := -half_b - Real.sqrt discriminant
    if 0 ≤ t then some t else none

/-- Pre-normalization scatter direction written exactly as the
specification words it: `random_unit_vector() + normal` for Lambertian and
`in_dir − 2·(in_dir·normal)·normal + fuzziness·random_unit_vector()` for
Metal.  Compared against `scatter`, which is translated from the source. -/
def scatterDirSpec (raw : Vec3) (in_ray : Ray) (normal_vec : Vec3)
    (material : Material) : Vec3 :=
  match material.material_type with
  | MaterialType.Lambertian => random_unit_vector raw + normal_vec
  | MaterialType.Metal fuzziness =>
      in_ray.direction - (2 * Vec3.dot in_ray.direction normal_vec) • normal_vec
        + fuzziness • random_unit_vector raw

/-- The background blend `(1−t)·white + t·(0.5, 0.7, 1.0)` used on
background termination of the bounce loop. -/
def gradColor (t : ℝ) : Color :=
  (1 - t) • Color.mk 1 1 1 + t • Color.mk 0.5 0.7 1

/-- A colour lying strictly between the horizon colour (white, `t = 0`)
and the zenith colour (`(0.5, 0.7, 1.0)`, `t = 1`) along the vertical
background gradient. -/
def strictlyBetweenGradient (c : Color) : Prop :=
  ∃ t : ℝ, 0 < t ∧ t < 1 ∧ c = gradColor t

/-- The list of `(object, t)` pairs that report a hit for `ray`, in scene
iteration order. -/
def hits (ray : Ray) (objs : List Sphere) : List (Sphere × ℝ) :=
  objs.filterMap (fun o => (Sphere.intersect o ray).map (fun t => (o, t)))

/-- The strict-minimum selection that the `(nearest_obj, tmin)` scan
performs, expressed directly on the list of hits. -/
def selectMin : Option (Sphere × ℝ) → List (Sphere × ℝ) → Option (Sphere × ℝ)
  | acc, [] => acc
  | none, q :: rest => selectMin (some q) rest
  | some (b, tm), (o, t) :: rest =>
      selectMin (if t < tm then some (o, t) else some (b, tm)) rest

/-- Repackage an optional best hit as the pair of mutable option
variables used in `nearest_intersection`. -/
def pack : Option (Sphere × ℝ) → Option Sphere × Option ℝ
  | none => (none, none)
  | some (o, t) => (some o, some t)

/-! ### Helper lemmas -/

@[simp] theorem Ray.new_orig (origin dir : Vec3) : (Ray.new origin dir).orig = origin := rfl

@[simp] theorem Ray.new_direction (origin dir : Vec3) :
    (Ray.new origin dir).direction = Vec3.normalize dir := rfl

theorem Vec3.normalize_unit {v : Vec3} (h : Vec3.dot v v = 1) :
    Vec3.normalize v = v := by
  unfold Vec3.normalize Vec3.norm
  rw [h, Real.sqrt_one]
  ext <;> simp

theorem Vec3.dot_unit_of_normalize {v : Vec3} (h : v ≠ 0) :
    Vec3.dot (Vec3.normalize v) (Vec3.normalize v) = 1 := by
  have h1 := Vec3.norm_normalize h
  have h2 := Vec3.sq_norm (Vec3.normalize v)
  rw [h1] at h2
  linarith [h2]

/-- Evaluation helper: `Sphere.intersect` expressed through the values of
`half_b` and `c`. -/
theorem Sphere.intersect_eval (s : Sphere) (r : Ray) (hb c : ℝ)
    (hhb : Vec3.dot (r.orig - s.centre) r.direction = hb)
    (hc : Vec3.dot (r.orig - s.centre) (r.orig - s.centre) - s.radius ^ 2 = c) :
    Sphere.intersect s r
      = if hb ^ 2 - c < 0 then none
        else if 0 ≤ -hb - Real.sqrt (hb ^ 2 - c)
          then some (-hb - Real.sqrt (hb ^ 2 - c)) else none := by
  simp only [Sphere.intersect, Vec3.sq_norm, hhb, hc]

theorem clampIf_le (x : ℝ) : (if 1 < x then (1 : ℝ) else x) ≤ x := by
  split_ifs with h
  · linarith
  · exact le_refl x

theorem clampIf_idem (x : ℝ) :
    (if 1 < (if 1 < x then (1 : ℝ) else x) then (1 : ℝ)
      else (if 1 < x then (1 : ℝ) else x)) = (if 1 < x then (1 : ℝ) else x) := by
  by_cases h : 1 < x
  · simp [h]
  · simp [h]

theorem toByte_nonneg (v : ℝ) : 0 ≤ toByte v :=
  le_min (by norm_num) (le_max_left 0 _)

theorem toByte_le (v : ℝ) : toByte v ≤ 255 := min_le_left _ _

theorem toByte_of_neg {v : ℝ} (h : v < 0) : toByte v = 0 := by
  have hf : ⌊(255 : ℝ) * v⌋ < 0 := Int.floor_lt.mpr (by push_cast; nlinarith)
  unfold toByte
  rw [max_eq_left hf.le, min_eq_right (by norm_num)]

theorem toByte_of_gt_one {v : ℝ} (h : 1 < v) : toByte v = 255 := by
  have hf : (255 : ℤ) ≤ ⌊(255 : ℝ) * v⌋ := Int.le_floor.mpr (by push_cast; nlinarith)
  unfold toByte
  rw [max_eq_right (by linarith : (0 : ℤ) ≤ ⌊(255 : ℝ) * v⌋),
    min_eq_left hf]

/-! ### Claims -/

/-- C9: `Color::clamp` is idempotent, never increases any channel, sets
exactly the channels strictly above 1.0 to 1.0, and leaves every other
channel — including negative ones — unchanged. -/
theorem clamp_spec (c : Color) :
    Color.clamp (Color.clamp c) = Color.clamp c
    ∧ (Color.clamp c).red ≤ c.red
    ∧ (Color.clamp c).green ≤ c.green
    ∧ (Color.clamp c).blue ≤ c.blue
    ∧ (c.red ≤ 1 → (Color.clamp c).red = c.red)
    ∧ (c.green ≤ 1 → (Color.clamp c).green = c.green)
    ∧ (c.blue ≤ 1 → (Color.clamp c).blue = c.blue)
    ∧ (1 < c.red → (Color.clamp c).red = 1)
    ∧ (1 < c.green → (Color.clamp c).green = 1)
    ∧ (1 < c.blue → (Color.clamp c).blue = 1) := by
  refine ⟨?_, clampIf_le _, clampIf_le _, clampIf_le _, ?_, ?_, ?_, ?_, ?_, ?_⟩
  · ext
    · exact clampIf_idem c.red
    · exact clampIf_idem c.green
    · exact clampIf_idem c.blue
  all_goals intro h
  all_goals simp only [Color.clamp, Color.mk_red, Color.mk_green, Color.mk_blue]
  all_goals split_ifs <;> first | rfl | linarith

/-- Witness for C9 at the colour `(1.5, -0.5, 0.7)`. -/
theorem clamp_spec_witness :
    Color.clamp (Color.mk 1.5 (-0.5) 0.7) = Color.mk 1 (-0.5) 0.7
    ∧ Color.clamp (Color.clamp (Color.mk 1.5 (-0.5) 0.7))
        = Color.clamp (Color.mk 1.5 (-0.5) 0.7) := by
  obtain ⟨h1, _, _, _, _, h6, h7, h8, _, _⟩ := clamp_spec (Color.mk 1.5 (-0.5) 0.7)
  refine ⟨?_, h1⟩
  ext
  · exact h8 (by norm_num)
  · exact h6 (by norm_num)
  · exact h7 (by norm_num)

/-- C10: for every colour, even with negative channels or channels above
1.0, the displayed triple consists of integers in `[0, 255]`, because the
`f32` to `u8` conversion saturates: a negative product maps to 0 and a
product above 255 (channel above 1.0) maps to 255. -/
theorem display_in_range (c : Color) :
    (0 ≤ (displayC c).1 ∧ (displayC c).1 ≤ 255)
    ∧ (0 ≤ (displayC c).2.1 ∧ (displayC c).2.1 ≤ 255)
    ∧ (0 ≤ (displayC c).2.2 ∧ (displayC c).2.2 ≤ 255)
    ∧ (c.red < 0 → (displayC c).1 = 0)
    ∧ (c.green < 0 → (displayC c).2.1 = 0)
    ∧ (c.blue < 0 → (displayC c).2.2 = 0)
    ∧ (1 < c.red → (displayC c).1 = 255)
    ∧ (1 < c.green → (displayC c).2.1 = 255)
    ∧ (1 < c.blue → (displayC c).2.2 = 255) :=
  ⟨⟨toByte_nonneg _, toByte_le _⟩, ⟨toByte_nonneg _, toByte_le _⟩,
   ⟨toByte_nonneg _, toByte_le _⟩,
   fun h => toByte_of_neg h, fun h => toByte_of_neg h, fun h => toByte_of_neg h,
   fun h => toByte_of_gt_one h, fun h => toByte_of_gt_one h,
   fun h => toByte_of_gt_one h⟩

/-- Witness for C10 at the colour `(-1, 2, 0.5)`. -/
theorem display_in_range_witness :
    (displayC (Color.mk (-1) 2 0.5)).1 = 0
    ∧ (displayC (Color.mk (-1) 2 0.5)).2.1 = 255
    ∧ 0 ≤ (displayC (Color.mk (-1) 2 0.5)).2.2 := by
  obtain ⟨_, _, ⟨h3, _⟩, h4, _, _, _, h8, _⟩ := display_in_range (Color.mk (-1) 2 0.5)
  exact ⟨h4 (by norm_num), h8 (by norm_num), h3⟩

/-- C6: `Ray::new` stores the origin unchanged and the direction
normalized, so a ray built from any non-zero direction has a unit-length
direction immediately after construction. -/
theorem ray_new_spec (origin dir : Vec3) :
    (Ray.new origin dir).orig = origin
    ∧ (Ray.new origin dir).direction = Vec3.normalize dir
    ∧ (dir ≠ 0 → Vec3.norm (Ray.new origin dir).direction = 1) :=
  ⟨rfl, rfl, fun h => Vec3.norm_normalize h⟩

/-- Witness for C6 at origin `(1, 2, 3)` and direction `(3, 4, 0)`. -/
theorem ray_new_spec_witness :
    (Ray.new (Vec3.mk 1 2 3) (Vec3.mk 3 4 0)).orig = Vec3.mk 1 2 3
    ∧ Vec3.norm (Ray.new (Vec3.mk 1 2 3) (Vec3.mk 3 4 0)).direction = 1 := by
  have h := ray_new_spec (Vec3.mk 1 2 3) (Vec3.mk 3 4 0)
  refine ⟨h.1, h.2.2 ?_⟩
  intro hc
  have hx := congrArg Vec3.x hc
  simp at hx

/-- C5: `scatter` returns a ray whose origin is the hit point; the
pre-normalization direction is `random_unit_vector() + normal` for
Lambertian and `in_dir − 2·(in_dir·normal)·normal + fuzziness·ruv` for
Metal, with normalization performed by the `Ray` constructor. -/
theorem scatter_spec (raw : Vec3) (in_ray : Ray) (intersection_pt normal_vec : Vec3)
    (material : Material) :
    scatter raw in_ray intersection_pt normal_vec material
      = Ray.new intersection_pt (scatterDirSpec raw in_ray normal_vec material)
    ∧ (scatter raw in_ray intersection_pt normal_vec material).orig
        = intersection_pt := by
  obtain ⟨mt, col⟩ := material
  cases mt with
  | Lambertian => exact ⟨rfl, rfl⟩
  | Metal fuzziness =>
      refine ⟨?_, rfl⟩
      simp only [scatter, scatterDirSpec]
      rw [Vec3.dot_comm normal_vec in_ray.direction]

/-- C2: `Sphere::intersect` agrees everywhere with the intersection
routine as the specification words it: discriminant
`(oc·direction)² − (|oc|² − r²)`, `None` when it is negative, otherwise
the nearest root `−half_b − sqrt(discriminant)` returned exactly when it
is non-negative (no fallback to the far root). -/
theorem sphere_intersect_eq_spec (s : Sphere) (r : Ray) :
    Sphere.intersect s r = sphereIntersectSpec s r := by
  simp only [Sphere.intersect, sphereIntersectSpec, Vec3.sq_norm]

/-- C7: whenever `Sphere::intersect` returns `Some t` for a sphere of
positive radius and a ray built by `Ray::new` from a non-zero direction,
the point `ray.at(t) = origin + t·direction` lies at distance exactly
`radius` from the sphere's centre. -/
theorem intersect_point_on_sphere (s : Sphere) (origin dir : Vec3) (t : ℝ)
    (hrad : 0 < s.radius) (hdir : dir ≠ 0)
    (h : Sphere.intersect s (Ray.new origin dir) = some t) :
    Vec3.norm (Ray.at (Ray.new origin dir) t - s.centre) = s.radius := by
  have hu : Vec3.dot (Vec3.normalize dir) (Vec3.normalize dir) = 1 :=
    Vec3.dot_unit_of_normalize hdir
  simp only [Sphere.intersect, Ray.new_orig, Ray.new_direction] at h
  split_ifs at h with h1 h2
  · have ht : t = -Vec3.dot (origin - s.centre) (Vec3.normalize dir)
        - Real.sqrt (Vec3.dot (origin - s.centre) (Vec3.normalize dir) ^ 2
          - ((Vec3.norm (origin - s.centre)) ^ 2 - s.radius ^ 2)) :=
      (Option.some.inj h).symm
    have hd0 : (0 : ℝ) ≤ Vec3.dot (origin - s.centre) (Vec3.normalize dir) ^ 2
        - ((Vec3.norm (origin - s.centre)) ^ 2 - s.radius ^ 2) := not_lt.mp h1
    have hsq := Real.sq_sqrt hd0
    have hoc := Vec3.sq_norm (origin - s.centre)
    have hnormsq : Vec3.dot (Ray.at (Ray.new origin dir) t - s.centre)
        (Ray.at (Ray.new origin dir) t - s.centre)
        = Vec3.dot (origin - s.centre) (origin - s.centre)
          + 2 * t * Vec3.dot (origin - s.centre) (Vec3.normalize dir)
          + t ^ 2 * Vec3.dot (Vec3.normalize dir) (Vec3.normalize dir) := by
      simp only [Ray.at, Ray.new_orig, Ray.new_direction, Vec3.dot, Vec3.add_x,
        Vec3.add_y, Vec3.add_z, Vec3.sub_x, Vec3.sub_y, Vec3.sub_z, Vec3.smul_x,
        Vec3.smul_y, Vec3.smul_z]
      ring
    have key : Vec3.dot (Ray.at (Ray.new origin dir) t - s.centre)
        (Ray.at (Ray.new origin dir) t - s.centre) = s.radius ^ 2 := by
      rw [hnormsq, hu, ht]
      nlinarith [hsq, hoc]
    unfold Vec3.norm
    rw [key, Real.sqrt_sq hrad.le]

/-- The sphere of the C7 witness: centre `(0, 0, -1)`, radius `0.5`. -/
def c7Sphere : Sphere :=
  ⟨⟨0, 0, -1⟩, 0.5, ⟨MaterialType.Lambertian, ⟨1, 1, 1⟩⟩⟩

/-- Witness for C7: the ray from the origin toward `(0, 0, -1)` hits
`c7Sphere` at `t = 0.5`, at the point `(0, 0, -0.5)`, which lies at
distance `0.5` from the centre. -/
theorem intersect_point_on_sphere_witness :
    Sphere.intersect c7Sphere (Ray.new (Vec3.mk 0 0 0) (Vec3.mk 0 0 (-1))) = some 0.5
    ∧ Ray.at (Ray.new (Vec3.mk 0 0 0) (Vec3.mk 0 0 (-1))) 0.5 = Vec3.mk 0 0 (-0.5)
    ∧ Vec3.norm (Ray.at (Ray.new (Vec3.mk 0 0 0) (Vec3.mk 0 0 (-1))) 0.5
        - c7Sphere.centre) = c7Sphere.radius := by
  have hn : Vec3.normalize (Vec3.mk 0 0 (-1)) = Vec3.mk 0 0 (-1) :=
    Vec3.normalize_unit (by simp [Vec3.dot])
  have hint : Sphere.intersect c7Sphere
      (Ray.new (Vec3.mk 0 0 0) (Vec3.mk 0 0 (-1))) = some 0.5 := by
    rw [Sphere.intersect_eval c7Sphere _ (-1) 0.75
      (by simp only [Ray.new_orig, Ray.new_direction, hn, c7Sphere]
          norm_num [Vec3.dot])
      (by simp only [Ray.new_orig, c7Sphere]
          norm_num [Vec3.dot])]
    rw [show ((-1 : ℝ)) ^ 2 - 0.75 = 0.5 ^ 2 by norm_num,
      Real.sqrt_sq (by norm_num : (0 : ℝ) ≤ 0.5)]
    rw [if_neg (by norm_num), if_pos (by norm_num)]
    norm_num
  refine ⟨hint, ?_, ?_⟩
  · simp only [Ray.at, Ray.new_orig, Ray.new_direction, hn]
    ext <;> norm_num
  · exact intersect_point_on_sphere c7Sphere (Vec3.mk 0 0 0) (Vec3.mk 0 0 (-1)) 0.5
      (by norm_num [c7Sphere]) (by
        intro hc
        have hz := congrArg Vec3.z hc
        simp at hz) hint

theorem scanLoop_eq_selectMin (ray : Ray) :
    ∀ (l : List Sphere) (acc : Option (Sphere × ℝ)),
      scanLoop ray l (pack acc) = pack (selectMin acc (hits ray l)) := by
  intro l
  induction l with
  | nil => intro acc; simp [scanLoop, selectMin, hits]
  | cons o rest ih =>
      intro acc
      cases hio : Sphere.intersect o ray with
      | none =>
          have h1 : hits ray (o :: rest) = hits ray rest := by
            simp [hits, List.filterMap_cons, hio]
          simp only [scanLoop, hio, h1]
          exact ih acc
      | some t =>
          have h1 : hits ray (o :: rest) = (o, t) :: hits ray rest := by
            simp [hits, List.filterMap_cons, hio]
          have hup : updateBest o t (pack acc)
              = pack (match acc with
                | none => some (o, t)
                | some (b, tm) => if t < tm then some (o, t) else some (b, tm)) := by
            cases acc with
            | none => rfl
            | some q =>
                obtain ⟨b, tm⟩ := q
                simp only [pack, updateBest]
                split_ifs <;> rfl
          simp only [scanLoop, hio, h1, hup, ih]
          cases acc with
          | none => rfl
          | some q => obtain ⟨b, tm⟩ := q; rfl

theorem selectMin_some_spec :
    ∀ (hl : List (Sphere × ℝ)) (b₀ : Sphere) (t₀ : ℝ),
      ∃ b t, selectMin (some (b₀, t₀)) hl = some (b, t)
        ∧ (((b, t) = (b₀, t₀) ∧ ∀ q ∈ hl, t₀ ≤ q.2)
          ∨ (∃ pre post, hl = pre ++ (b, t) :: post ∧ t < t₀
              ∧ (∀ q ∈ pre, t < q.2) ∧ (∀ q ∈ hl, t ≤ q.2))) := by
  intro hl
  induction hl with
  | nil =>
      intro b₀ t₀
      exact ⟨b₀, t₀, rfl, Or.inl ⟨rfl, by simp⟩⟩
  | cons q rest ih =>
      obtain ⟨o, s⟩ := q
      intro b₀ t₀
      by_cases hs : s < t₀
      · obtain ⟨b, t, heq, hcase⟩ := ih o s
        refine ⟨b, t, ?_, ?_⟩
        · simp only [selectMin, if_pos hs]
          exact heq
        · rcases hcase with ⟨hbt, hmin⟩ | ⟨pre, post, hsplit, hlt, hpre, hmin⟩
          · rw [Prod.mk.injEq] at hbt
            obtain ⟨hb, ht⟩ := hbt
            subst hb; subst ht
            refine Or.inr ⟨[], rest, by simp, hs, by simp, ?_⟩
            intro q hq
            rcases List.mem_cons.mp hq with h | h
            · subst h; exact le_refl _
            · exact hmin q h
          · refine Or.inr ⟨(o, s) :: pre, post, by simp [hsplit], by linarith, ?_, ?_⟩
            · intro q hq
              rcases List.mem_cons.mp hq with h | h
              · subst h; exact hlt
              · exact hpre q h
            · intro q hq
              rcases List.mem_cons.mp hq with h | h
              · subst h; exact hlt.le
              · exact hmin q h
      · obtain ⟨b, t, heq, hcase⟩ := ih b₀ t₀
        have hst : t₀ ≤ s := not_lt.mp hs
        refine ⟨b, t, ?_, ?_⟩
        · simp only [selectMin, if_neg hs]
          exact heq
        · rcases hcase with ⟨hbt, hmin⟩ | ⟨pre, post, hsplit, hlt, hpre, hmin⟩
          · refine Or.inl ⟨hbt, ?_⟩
            intro q hq
            rcases List.mem_cons.mp hq with h | h
            · subst h; exact hst
            · exact hmin q h
          · refine Or.inr ⟨(o, s) :: pre, post, by simp [hsplit], hlt, ?_, ?_⟩
            · intro q hq
              rcases List.mem_cons.mp hq with h | h
              · subst h; show t < s; linarith
              · exact hpre q h
            · intro q hq
              rcases List.mem_cons.mp hq with h | h
              · subst h; show t ≤ s; linarith
              · exact hmin q h

theorem selectMin_none_spec (hl : List (Sphere × ℝ)) (hne : hl ≠ []) :
    ∃ b t pre post, selectMin none hl = some (b, t)
      ∧ hl = pre ++ (b, t) :: post
      ∧ (∀ q ∈ pre, t < q.2) ∧ (∀ q ∈ hl, t ≤ q.2) := by
  cases hl with
  | nil => exact absurd rfl hne
  | cons q rest =>
      obtain ⟨o, s⟩ := q
      obtain ⟨b, t, heq, hcase⟩ := selectMin_some_spec rest o s
      have heq' : selectMin none ((o, s) :: rest) = some (b, t) := heq
      rcases hcase with ⟨hbt, hmin⟩ | ⟨pre, post, hsplit, hlt, hpre, hmin⟩
      · rw [Prod.mk.injEq] at hbt
        obtain ⟨hb, ht⟩ := hbt
        subst hb; subst ht
        refine ⟨b, t, [], rest, heq', by simp, by simp, ?_⟩
        intro q hq
        rcases List.mem_cons.mp hq with h | h
        · subst h; exact le_refl _
        · exact hmin q h
      · refine ⟨b, t, (o, s) :: pre, post, heq', by simp [hsplit], ?_, ?_⟩
        · intro q hq
          rcases List.mem_cons.mp hq with h | h
          · subst h; exact hlt
          · exact hpre q h
        · intro q hq
          rcases List.mem_cons.mp hq with h | h
          · subst h; exact hlt.le
          · exact hmin q h

theorem hits_mem {ray : Ray} {objs : List Sphere} {o : Sphere} {t : ℝ}
    (h : (o, t) ∈ hits ray objs) :
    o ∈ objs ∧ Sphere.intersect o ray = some t := by
  simp only [hits, List.mem_filterMap] at h
  obtain ⟨a, ha, hfa⟩ := h
  rcases ho : Sphere.intersect a ray with _ | t'
  · rw [ho] at hfa; simp at hfa
  · rw [ho] at hfa
    simp only [Option.map_some'] at hfa
    have hfa' := Option.some.inj hfa
    rw [Prod.mk.injEq] at hfa'
    obtain ⟨h1, h2⟩ := hfa'
    subst h1; subst h2
    exact ⟨ha, ho⟩

theorem hits_eq_nil_iff (ray : Ray) (objs : List Sphere) :
    hits ray objs = [] ↔ ∀ o ∈ objs, Sphere.intersect o ray = none := by
  simp only [hits, List.filterMap_eq_nil_iff, Option.map_eq_none']

/-- C3: `nearest_intersection` returns `None` exactly when no object
reports a hit; otherwise it returns the hit of minimum `t` over all
objects reporting one, breaking ties in favour of the first object in
iteration order (everything before the winner in the ordered hit list is
strictly farther), with hit point `ray.at(t)` and the winning object's
normal at that point. -/
theorem nearest_intersection_spec (ray : Ray) (objs : List Sphere) :
    (nearest_intersection ray objs = none
      ↔ ∀ o ∈ objs, Sphere.intersect o ray = none)
    ∧ ∀ p nv o, nearest_intersection ray objs = some (p, nv, o) →
        ∃ t pre post,
          Sphere.intersect o ray = some t ∧ o ∈ objs
          ∧ hits ray objs = pre ++ (o, t) :: post
          ∧ (∀ q ∈ pre, t < q.2)
          ∧ (∀ q ∈ hits ray objs, t ≤ q.2)
          ∧ p = Ray.at ray t ∧ nv = Sphere.normal o (Ray.at ray t) := by
  have hbridge : scanLoop ray objs (none, none)
      = pack (selectMin none (hits ray objs)) :=
    scanLoop_eq_selectMin ray objs none
  by_cases hnil : hits ray objs = []
  · have hnone : nearest_intersection ray objs = none := by
      unfold nearest_intersection
      rw [hbridge, hnil]
      rfl
    constructor
    · constructor
      · intro _; exact (hits_eq_nil_iff ray objs).mp hnil
      · intro _; exact hnone
    · intro p nv o h
      rw [hnone] at h
      exact absurd h (by simp)
  · obtain ⟨b, t, pre, post, hsel, hsplit, hpre, hmin⟩ :=
      selectMin_none_spec (hits ray objs) hnil
    have hsome : nearest_intersection ray objs
        = some (Ray.at ray t, Sphere.normal b (Ray.at ray t), b) := by
      unfold nearest_intersection
      rw [hbridge, hsel]
      rfl
    constructor
    · constructor
      · intro h
        rw [hsome] at h
        exact absurd h (by simp)
      · intro hall
        have hmem : (b, t) ∈ hits ray objs := by rw [hsplit]; simp
        obtain ⟨hobj, hint⟩ := hits_mem hmem
        rw [hall b hobj] at hint
        exact absurd hint (by simp)
    · intro p nv o h
      rw [hsome] at h
      have h' := Option.some.inj h
      rw [Prod.mk.injEq, Prod.mk.injEq] at h'
      obtain ⟨h1, h2, h3⟩ := h'
      subst h1; subst h2; subst h3
      have hmem : (b, t) ∈ hits ray objs := by rw [hsplit]; simp
      obtain ⟨hobj, hint⟩ := hits_mem hmem
      exact ⟨t, pre, post, hint, hobj, hsplit, hpre, hmin, rfl, rfl⟩

/-- First sphere of the C3 witness scene: centre `(0, 0, -3)`, radius 1. -/
def c3Sphere1 : Sphere :=
  ⟨⟨0, 0, -3⟩, 1, ⟨MaterialType.Lambertian, ⟨1, 1, 1⟩⟩⟩

/-- Second sphere of the C3 witness scene: centre `(0, 0, -5)`, radius 1,
overlapping the first along the ray from the origin toward `-z`. -/
def c3Sphere2 : Sphere :=
  ⟨⟨0, 0, -5⟩, 1, ⟨MaterialType.Lambertian, ⟨1, 1, 1⟩⟩⟩

/-- Witness for C3: over two spheres overlapping along the same ray, the
resolver returns the closer sphere's identity with the smaller `t = 2`
(the farther sphere hits at `t = 4`), and the returned point is
`ray.at(2)`. -/
theorem nearest_intersection_spec_witness :
    nearest_intersection (Ray.new (Vec3.mk 0 0 0) (Vec3.mk 0 0 (-1)))
        [c3Sphere1, c3Sphere2]
      = some (Vec3.mk 0 0 (-2), Vec3.mk 0 0 1, c3Sphere1)
    ∧ (2 : ℝ) ≤ 4
    ∧ Vec3.mk 0 0 (-2) = Ray.at (Ray.new (Vec3.mk 0 0 0) (Vec3.mk 0 0 (-1))) 2 := by
  have hn : Vec3.normalize (Vec3.mk 0 0 (-1)) = Vec3.mk 0 0 (-1) :=
    Vec3.normalize_unit (by norm_num [Vec3.dot])
  have hi1 : Sphere.intersect c3Sphere1
      (Ray.new (Vec3.mk 0 0 0) (Vec3.mk 0 0 (-1))) = some 2 := by
    rw [Sphere.intersect_eval _ _ (-3) 8
      (by simp only [Ray.new_orig, Ray.new_direction, hn, c3Sphere1]
          norm_num [Vec3.dot])
      (by simp only [Ray.new_orig, c3Sphere1]
          norm_num [Vec3.dot])]
    rw [show ((-3 : ℝ)) ^ 2 - 8 = 1 by norm_num, Real.sqrt_one]
    rw [if_neg (by norm_num), if_pos (by norm_num)]
    norm_num
  have hi2 : Sphere.intersect c3Sphere2
      (Ray.new (Vec3.mk 0 0 0) (Vec3.mk 0 0 (-1))) = some 4 := by
    rw [Sphere.intersect_eval _ _ (-5) 24
      (by simp only [Ray.new_orig, Ray.new_direction, hn, c3Sphere2]
          norm_num [Vec3.dot])
      (by simp only [Ray.new_orig, c3Sphere2]
          norm_num [Vec3.dot])]
    rw [show ((-5 : ℝ)) ^ 2 - 24 = 1 by norm_num, Real.sqrt_one]
    rw [if_neg (by norm_num), if_pos (by norm_num)]
    norm_num
  have hat : Ray.at (Ray.new (Vec3.mk 0 0 0) (Vec3.mk 0 0 (-1))) 2
      = Vec3.mk 0 0 (-2) := by
    simp only [Ray.at, Ray.new_orig, Ray.new_direction, hn]
    ext <;> norm_num
  have hnear : nearest_intersection (Ray.new (Vec3.mk 0 0 0) (Vec3.mk 0 0 (-1)))
      [c3Sphere1, c3Sphere2]
      = some (Vec3.mk 0 0 (-2), Vec3.mk 0 0 1, c3Sphere1) := by
    have hscan : scanLoop (Ray.new (Vec3.mk 0 0 0) (Vec3.mk 0 0 (-1)))
        [c3Sphere1, c3Sphere2] (none, none) = (some c3Sphere1, some 2) := by
      simp only [scanLoop, hi1, hi2, updateBest]
      rw [if_neg (by norm_num : ¬((4 : ℝ) < 2))]
    unfold nearest_intersection
    rw [hscan]
    have hnorm : Sphere.normal c3Sphere1 (Vec3.mk 0 0 (-2)) = Vec3.mk 0 0 1 := by
      simp only [Sphere.normal, c3Sphere1]
      rw [show Vec3.mk 0 0 (-2) - Vec3.mk 0 0 (-3) = Vec3.mk 0 0 1 by
        ext <;> norm_num]
      exact Vec3.normalize_unit (by norm_num [Vec3.dot])
    show some (Ray.at _ 2, Sphere.normal c3Sphere1 (Ray.at _ 2), c3Sphere1) = _
    rw [hat, hnorm]
  have happ := (nearest_intersection_spec
      (Ray.new (Vec3.mk 0 0 0) (Vec3.mk 0 0 (-1))) [c3Sphere1, c3Sphere2]).2
      (Vec3.mk 0 0 (-2)) (Vec3.mk 0 0 1) c3Sphere1 hnear
  obtain ⟨t, pre, post, hint, hmem, hsplit, hpre, hmin, hp, hnv⟩ := happ
  have ht2 : t = 2 := by
    rw [hi1] at hint
    exact (Option.some.inj hint).symm
  refine ⟨hnear, ?_, ?_⟩
  · have h4 : (c3Sphere2, (4 : ℝ)) ∈ hits
        (Ray.new (Vec3.mk 0 0 0) (Vec3.mk 0 0 (-1))) [c3Sphere1, c3Sphere2] := by
      simp [hits, List.filterMap_cons, hi1, hi2]
    have h5 := hmin _ h4
    rw [ht2] at h5
    simpa using h5
  · rw [ht2] at hp
    exact hp

theorem nearest_nil (r : Ray) : nearest_intersection r [] = none := rfl

theorem bounceLoop_nil (rnd : ℕ → Vec3) (fuel i : ℕ) (r : Ray) (cnt : ℕ)
    (col : Color) : bounceLoop [] rnd fuel i r cnt col = (r, cnt, col) := by
  cases fuel with
  | zero => rfl
  | succ n => simp only [bounceLoop, nearest_nil]

theorem white_mul (c : Color) : Color.mk 1 1 1 * c = c := by
  ext <;> simp

/-- Counterexample to C4 as stated: over the empty scene, a ray pointing
straight up (`direction.y = 1`) returns exactly the zenith colour
`(0.5, 0.7, 1.0)`, which does not lie strictly between the horizon and
zenith colours along the gradient. -/
theorem ray_color_vertical_counterexample :
    ray_color [] (fun _ => Vec3.mk 1 0 0) (Ray.new (Vec3.mk 0 0 0) (Vec3.mk 0 1 0))
      = Color.mk 0.5 0.7 1
    ∧ ¬ strictlyBetweenGradient (Color.mk 0.5 0.7 1) := by
  constructor
  · have hn : Vec3.normalize (Vec3.mk 0 1 0) = Vec3.mk 0 1 0 :=
      Vec3.normalize_unit (by norm_num [Vec3.dot])
    unfold ray_color
    rw [bounceLoop_nil]
    rw [if_neg (by simp [max_depth])]
    simp only [Ray.new_direction, hn, Vec3.mk_y]
    ext <;> norm_num
  · rintro ⟨t, ht0, ht1, he⟩
    have hred := congrArg Color.red he
    simp only [gradColor, Color.add_red, Color.smul_red, Color.mk_red] at hred
    linarith

/-- C4 (amended): when the bounce loop terminates by a miss (count below
`max_depth`), the result is the accumulated colour times the blend
`(1−t)·white + t·(0.5,0.7,1.0)` with `t = 0.5·(final_ray.direction.y + 1)`;
over the empty scene the result is exactly the blend of the primary ray's
`direction.y`, and it lies strictly between the horizon and zenith colours
whenever `direction.y ∈ (−1, 1)` (a vertical direction attains an endpoint
exactly). -/
theorem ray_color_background_spec (objs : List Sphere) (rnd : ℕ → Vec3) (r : Ray) :
    (∀ used cnt col,
      bounceLoop objs rnd max_depth 0 r 0 (Color.mk 1 1 1) = (used, cnt, col) →
      cnt < max_depth →
      ray_color objs rnd r = col * gradColor (0.5 * (used.direction.y + 1.0)))
    ∧ ray_color [] rnd r = gradColor (0.5 * (r.direction.y + 1.0))
    ∧ (-1 < r.direction.y → r.direction.y < 1 →
        strictlyBetweenGradient (ray_color [] rnd r)) := by
  have hempty : ray_color [] rnd r = gradColor (0.5 * (r.direction.y + 1.0)) := by
    unfold ray_color
    rw [bounceLoop_nil]
    rw [if_neg (by simp [max_depth])]
    show Color.mk 1 1 1 * _ = _
    rw [white_mul]
    rfl
  refine ⟨?_, hempty, ?_⟩
  · intro used cnt col hrun hlt
    unfold ray_color
    rw [hrun]
    rw [if_neg (by simp only [max_depth] at hlt ⊢; omega)]
    rfl
  · intro h1 h2
    rw [hempty]
    exact ⟨0.5 * (r.direction.y + 1.0), by linarith, by linarith, rfl⟩

/-- Witness for C4 at the empty scene and the primary ray toward
`(0, 0, -1)` (so `direction.y = 0` and the blend parameter is `0.5`). -/
theorem ray_color_background_spec_witness :
    ray_color [] (fun _ => Vec3.mk 1 0 0) (Ray.new (Vec3.mk 0 0 0) (Vec3.mk 0 0 (-1)))
      = gradColor 0.5
    ∧ strictlyBetweenGradient (ray_color [] (fun _ => Vec3.mk 1 0 0)
        (Ray.new (Vec3.mk 0 0 0) (Vec3.mk 0 0 (-1))))
    ∧ Color.mk 1 1 1 * gradColor 0.5
      = ray_color [] (fun _ => Vec3.mk 1 0 0)
          (Ray.new (Vec3.mk 0 0 0) (Vec3.mk 0 0 (-1))) := by
  have hn : Vec3.normalize (Vec3.mk 0 0 (-1)) = Vec3.mk 0 0 (-1) :=
    Vec3.normalize_unit (by norm_num [Vec3.dot])
  have hy : (Ray.new (Vec3.mk 0 0 0) (Vec3.mk 0 0 (-1))).direction.y = 0 := by
    simp [Ray.new_direction, hn]
  have h := ray_color_background_spec [] (fun _ => Vec3.mk 1 0 0)
    (Ray.new (Vec3.mk 0 0 0) (Vec3.mk 0 0 (-1)))
  refine ⟨?_, ?_, ?_⟩
  · rw [h.2.1, hy]
    norm_num
  · exact h.2.2 (by rw [hy]; norm_num) (by rw [hy]; norm_num)
  · have ha := h.1 (Ray.new (Vec3.mk 0 0 0) (Vec3.mk 0 0 (-1))) 0 (Color.mk 1 1 1)
      (bounceLoop_nil _ _ _ _ _ _) (by simp [max_depth])
    rw [hy] at ha
    rw [show (0.5 * ((0 : ℝ) + 1.0)) = 0.5 by norm_num] at ha
    exact ha.symm

theorem mul_white (c : Color) : c * Color.mk 1 1 1 = c := by
  ext <;> simp

/-- Evaluation helper for hits whose discriminant is exactly 1. -/
theorem intersect_eval_disc_one (s : Sphere) (r : Ray) (hb c : ℝ)
    (hhb : Vec3.dot (r.orig - s.centre) r.direction = hb)
    (hc : Vec3.dot (r.orig - s.centre) (r.orig - s.centre) - s.radius ^ 2 = c)
    (hdisc : hb ^ 2 - c = 1) :
    Sphere.intersect s r = if 0 ≤ -hb - 1 then some (-hb - 1) else none := by
  rw [Sphere.intersect_eval s r hb c hhb hc, hdisc, Real.sqrt_one]
  rw [if_neg (by norm_num)]

/-- Metal material with zero fuzziness and white base colour (C1 scene). -/
def mirrorMat : Material := ⟨MaterialType.Metal 0, ⟨1, 1, 1⟩⟩

/-- C1 scene, first mirror: unit sphere at the origin. -/
def mirrorA : Sphere := ⟨⟨0, 0, 0⟩, 1, mirrorMat⟩

/-- C1 scene, second mirror: unit sphere at `(0, 0, 10)`, facing the
first, so a ray on the z-axis between them bounces forever. -/
def mirrorB : Sphere := ⟨⟨0, 0, 10⟩, 1, mirrorMat⟩

/-- The C1 scene: two perfect mirrors facing each other. -/
def mirrorScene : List Sphere := [mirrorA, mirrorB]

/-- The raw random stream used for C1 (irrelevant: fuzziness is 0). -/
def mirrorRnd : ℕ → Vec3 := fun _ => Vec3.mk 1 0 0

/-- Bounce-loop state travelling up the z-axis, from `(0,0,1)` on mirror A. -/
def mirrorRayUp : Ray := ⟨⟨0, 0, 1⟩, ⟨0, 0, 1⟩⟩

/-- Bounce-loop state travelling down the z-axis, from `(0,0,9)` on mirror B. -/
def mirrorRayDown : Ray := ⟨⟨0, 0, 9⟩, ⟨0, 0, -1⟩⟩

theorem mirror_nearest_first :
    nearest_intersection (Ray.mk (Vec3.mk 0 0 5) (Vec3.mk 0 0 (-1))) mirrorScene
      = some (Vec3.mk 0 0 1, Vec3.mk 0 0 1, mirrorA) := by
  have hiA : Sphere.intersect mirrorA
      (Ray.mk (Vec3.mk 0 0 5) (Vec3.mk 0 0 (-1))) = some 4 := by
    rw [intersect_eval_disc_one _ _ (-5) 24 (by norm_num [Vec3.dot, mirrorA])
      (by norm_num [Vec3.dot, mirrorA]) (by norm_num)]
    rw [if_pos (by norm_num)]
    norm_num
  have hiB : Sphere.intersect mirrorB
      (Ray.mk (Vec3.mk 0 0 5) (Vec3.mk 0 0 (-1))) = none := by
    rw [intersect_eval_disc_one _ _ 5 24 (by norm_num [Vec3.dot, mirrorB])
      (by norm_num [Vec3.dot, mirrorB]) (by norm_num)]
    rw [if_neg (by norm_num)]
  have hscan : scanLoop (Ray.mk (Vec3.mk 0 0 5) (Vec3.mk 0 0 (-1))) mirrorScene
      (none, none) = (some mirrorA, some 4) := by
    simp only [mirrorScene, scanLoop, hiA, hiB, updateBest]
  unfold nearest_intersection
  rw [hscan]
  show some (Ray.at (Ray.mk (Vec3.mk 0 0 5) (Vec3.mk 0 0 (-1))) 4,
    Sphere.normal mirrorA (Ray.at (Ray.mk (Vec3.mk 0 0 5) (Vec3.mk 0 0 (-1))) 4),
    mirrorA) = _
  have hat : Ray.at (Ray.mk (Vec3.mk 0 0 5) (Vec3.mk 0 0 (-1))) 4
      = Vec3.mk 0 0 1 := by
    simp only [Ray.at]
    ext <;> norm_num
  rw [hat]
  have hnorm : Sphere.normal mirrorA (Vec3.mk 0 0 1) = Vec3.mk 0 0 1 := by
    simp only [Sphere.normal, mirrorA]
    rw [show Vec3.mk 0 0 1 - Vec3.mk 0 0 0 = Vec3.mk 0 0 1 by ext <;> norm_num]
    exact Vec3.normalize_unit (by norm_num [Vec3.dot])
  rw [hnorm]

theorem mirror_nearest_up :
    nearest_intersection mirrorRayUp mirrorScene
      = some (Vec3.mk 0 0 9, Vec3.mk 0 0 (-1), mirrorB) := by
  have hiA : Sphere.intersect mirrorA mirrorRayUp = none := by
    rw [intersect_eval_disc_one _ _ 1 0 (by norm_num [Vec3.dot, mirrorA, mirrorRayUp])
      (by norm_num [Vec3.dot, mirrorA, mirrorRayUp]) (by norm_num)]
    rw [if_neg (by norm_num)]
  have hiB : Sphere.intersect mirrorB mirrorRayUp = some 8 := by
    rw [intersect_eval_disc_one _ _ (-9) 80 (by norm_num [Vec3.dot, mirrorB, mirrorRayUp])
      (by norm_num [Vec3.dot, mirrorB, mirrorRayUp]) (by norm_num)]
    rw [if_pos (by norm_num)]
    norm_num
  have hscan : scanLoop mirrorRayUp mirrorScene (none, none)
      = (some mirrorB, some 8) := by
    simp only [mirrorScene, scanLoop, hiA, hiB, updateBest]
  unfold nearest_intersection
  rw [hscan]
  show some (Ray.at mirrorRayUp 8, Sphere.normal mirrorB (Ray.at mirrorRayUp 8),
    mirrorB) = _
  have hat : Ray.at mirrorRayUp 8 = Vec3.mk 0 0 9 := by
    simp only [Ray.at, mirrorRayUp]
    ext <;> norm_num
  rw [hat]
  have hnorm : Sphere.normal mirrorB (Vec3.mk 0 0 9) = Vec3.mk 0 0 (-1) := by
    simp only [Sphere.normal, mirrorB]
    rw [show Vec3.mk 0 0 9 - Vec3.mk 0 0 10 = Vec3.mk 0 0 (-1) by ext <;> norm_num]
    exact Vec3.normalize_unit (by norm_num [Vec3.dot])
  rw [hnorm]

theorem mirror_nearest_down :
    nearest_intersection mirrorRayDown mirrorScene
      = some (Vec3.mk 0 0 1, Vec3.mk 0 0 1, mirrorA) := by
  have hiA : Sphere.intersect mirrorA mirrorRayDown = some 8 := by
    rw [intersect_eval_disc_one _ _ (-9) 80
      (by norm_num [Vec3.dot, mirrorA, mirrorRayDown])
      (by norm_num [Vec3.dot, mirrorA, mirrorRayDown]) (by norm_num)]
    rw [if_pos (by norm_num)]
    norm_num
  have hiB : Sphere.intersect mirrorB mirrorRayDown = none := by
    rw [intersect_eval_disc_one _ _ 1 0
      (by norm_num [Vec3.dot, mirrorB, mirrorRayDown])
      (by norm_num [Vec3.dot, mirrorB, mirrorRayDown]) (by norm_num)]
    rw [if_neg (by norm_num)]
  have hscan : scanLoop mirrorRayDown mirrorScene (none, none)
      = (some mirrorA, some 8) := by
    simp only [mirrorScene, scanLoop, hiA, hiB, updateBest]
  unfold nearest_intersection
  rw [hscan]
  show some (Ray.at mirrorRayDown 8, Sphere.normal mirrorA (Ray.at mirrorRayDown 8),
    mirrorA) = _
  have hat : Ray.at mirrorRayDown 8 = Vec3.mk 0 0 1 := by
    simp only [Ray.at, mirrorRayDown]
    ext <;> norm_num
  rw [hat]
  have hnorm : Sphere.normal mirrorA (Vec3.mk 0 0 1) = Vec3.mk 0 0 1 := by
    simp only [Sphere.normal, mirrorA]
    rw [show Vec3.mk 0 0 1 - Vec3.mk 0 0 0 = Vec3.mk 0 0 1 by ext <;> norm_num]
    exact Vec3.normalize_unit (by norm_num [Vec3.dot])
  rw [hnorm]

theorem mirror_scatter_first (i : ℕ) :
    scatter (mirrorRnd i) (Ray.mk (Vec3.mk 0 0 5) (Vec3.mk 0 0 (-1))) (Vec3.mk 0 0 1)
      (Vec3.mk 0 0 1) (Sphere.get_material mirrorA) = mirrorRayUp := by
  have hw : Vec3.normalize (Vec3.mk 1 0 0) = Vec3.mk 1 0 0 :=
    Vec3.normalize_unit (by norm_num [Vec3.dot])
  have hdir : (Ray.mk (Vec3.mk 0 0 5) (Vec3.mk 0 0 (-1))).direction
      - (2 * Vec3.dot (Vec3.mk 0 0 1)
          (Ray.mk (Vec3.mk 0 0 5) (Vec3.mk 0 0 (-1))).direction) • Vec3.mk 0 0 1
      + (0 : ℝ) • Vec3.mk 1 0 0 = Vec3.mk 0 0 1 := by
    ext <;> norm_num [Vec3.dot]
  simp only [scatter, Sphere.get_material, mirrorA, mirrorMat, random_unit_vector,
    mirrorRnd, hw]
  rw [hdir]
  unfold mirrorRayUp Ray.new
  rw [Vec3.normalize_unit (by norm_num [Vec3.dot])]

theorem mirror_scatter_up (i : ℕ) :
    scatter (mirrorRnd i) mirrorRayUp (Vec3.mk 0 0 9) (Vec3.mk 0 0 (-1))
      (Sphere.get_material mirrorB) = mirrorRayDown := by
  have hw : Vec3.normalize (Vec3.mk 1 0 0) = Vec3.mk 1 0 0 :=
    Vec3.normalize_unit (by norm_num [Vec3.dot])
  have hdir : mirrorRayUp.direction
      - (2 * Vec3.dot (Vec3.mk 0 0 (-1)) mirrorRayUp.direction) • Vec3.mk 0 0 (-1)
      + (0 : ℝ) • Vec3.mk 1 0 0 = Vec3.mk 0 0 (-1) := by
    ext <;> norm_num [Vec3.dot, mirrorRayUp]
  simp only [scatter, Sphere.get_material, mirrorB, mirrorMat, random_unit_vector,
    mirrorRnd, hw]
  rw [hdir]
  unfold mirrorRayDown Ray.new
  rw [Vec3.normalize_unit (by norm_num [Vec3.dot])]

theorem mirror_scatter_down (i : ℕ) :
    scatter (mirrorRnd i) mirrorRayDown (Vec3.mk 0 0 1) (Vec3.mk 0 0 1)
      (Sphere.get_material mirrorA) = mirrorRayUp := by
  have hw : Vec3.normalize (Vec3.mk 1 0 0) = Vec3.mk 1 0 0 :=
    Vec3.normalize_unit (by norm_num [Vec3.dot])
  have hdir : mirrorRayDown.direction
      - (2 * Vec3.dot (Vec3.mk 0 0 1) mirrorRayDown.direction) • Vec3.mk 0 0 1
      + (0 : ℝ) • Vec3.mk 1 0 0 = Vec3.mk 0 0 1 := by
    ext <;> norm_num [Vec3.dot, mirrorRayDown]
  simp only [scatter, Sphere.get_material, mirrorA, mirrorMat, random_unit_vector,
    mirrorRnd, hw]
  rw [hdir]
  unfold mirrorRayUp Ray.new
  rw [Vec3.normalize_unit (by norm_num [Vec3.dot])]

theorem bounce_step_first (n i cnt : ℕ) (col : Color) :
    bounceLoop mirrorScene mirrorRnd (n + 1) i
      (Ray.mk (Vec3.mk 0 0 5) (Vec3.mk 0 0 (-1))) cnt col
      = bounceLoop mirrorScene mirrorRnd n (i + 1) mirrorRayUp (cnt + 1) col := by
  simp only [bounceLoop, mirror_nearest_first, mirror_scatter_first]
  rw [show Sphere.get_color mirrorA = Color.mk 1 1 1 from rfl, mul_white]

theorem bounce_step_up (n i cnt : ℕ) (col : Color) :
    bounceLoop mirrorScene mirrorRnd (n + 1) i mirrorRayUp cnt col
      = bounceLoop mirrorScene mirrorRnd n (i + 1) mirrorRayDown (cnt + 1) col := by
  simp only [bounceLoop, mirror_nearest_up, mirror_scatter_up]
  rw [show Sphere.get_color mirrorB = Color.mk 1 1 1 from rfl, mul_white]

theorem bounce_step_down (n i cnt : ℕ) (col : Color) :
    bounceLoop mirrorScene mirrorRnd (n + 1) i mirrorRayDown cnt col
      = bounceLoop mirrorScene mirrorRnd n (i + 1) mirrorRayUp (cnt + 1) col := by
  simp only [bounceLoop, mirror_nearest_down, mirror_scatter_down]
  rw [show Sphere.get_color mirrorA = Color.mk 1 1 1 from rfl, mul_white]

theorem bounce_pairs_down : ∀ (n i cnt : ℕ) (col : Color),
    bounceLoop mirrorScene mirrorRnd (2 * n) i mirrorRayDown cnt col
      = (mirrorRayDown, cnt + 2 * n, col) := by
  intro n
  induction n with
  | zero => intro i cnt col; simp [bounceLoop]
  | succ m ih =>
      intro i cnt col
      rw [show 2 * (m + 1) = (2 * m + 1) + 1 by ring]
      rw [bounce_step_down, bounce_step_up, ih]
      rw [show cnt + 1 + 1 + 2 * m = cnt + (2 * m + 1 + 1) by ring]

/-- C1 is refuted by the code: in the two-mirror scene the primary ray
from `(0,0,5)` toward `-z` bounces all `max_depth = 20` times without ever
missing (final count is exactly `max_depth`), yet the integrator returns
`(0.75, 0.85, 1.0)` — the accumulated colour times the sky blend — and not
pure black: the black branch tests `count == max_depth + 1`, which the
loop can never reach. -/
theorem depth_exhaustion_not_black :
    (bounceLoop mirrorScene mirrorRnd max_depth 0
        (Ray.new (Vec3.mk 0 0 5) (Vec3.mk 0 0 (-1))) 0 (Color.mk 1 1 1)).2.1
      = max_depth
    ∧ ray_color mirrorScene mirrorRnd (Ray.new (Vec3.mk 0 0 5) (Vec3.mk 0 0 (-1)))
      = Color.mk 0.75 0.85 1
    ∧ Color.mk (0.75 : ℝ) 0.85 1 ≠ Color.mk 0 0 0 := by
  have hray0 : Ray.new (Vec3.mk 0 0 5) (Vec3.mk 0 0 (-1))
      = Ray.mk (Vec3.mk 0 0 5) (Vec3.mk 0 0 (-1)) := by
    unfold Ray.new
    rw [Vec3.normalize_unit (by norm_num [Vec3.dot])]
  have hrun : bounceLoop mirrorScene mirrorRnd max_depth 0
      (Ray.mk (Vec3.mk 0 0 5) (Vec3.mk 0 0 (-1))) 0 (Color.mk 1 1 1)
      = (mirrorRayDown, 20, Color.mk 1 1 1) := by
    show bounceLoop mirrorScene mirrorRnd (19 + 1) 0 _ 0 _ = _
    rw [bounce_step_first]
    show bounceLoop mirrorScene mirrorRnd (18 + 1) 1 _ 1 _ = _
    rw [bounce_step_up]
    show bounceLoop mirrorScene mirrorRnd (2 * 9) 2 _ 2 _ = _
    rw [bounce_pairs_down]
  refine ⟨?_, ?_, ?_⟩
  · rw [hray0, hrun]
    rfl
  · unfold ray_color
    rw [hray0, hrun]
    rw [if_neg (by simp [max_depth])]
    simp only [mirrorRayDown]
    ext <;> norm_num
  · intro h
    have hred := congrArg Color.red h
    norm_num at hred

theorem rasterCoords_succ (h w : ℕ) :
    rasterCoords (h + 1) w
      = (List.range w).map (fun c => (h, c)) ++ rasterCoords h w := by
  unfold rasterCoords
  rw [List.range_succ, List.reverse_append]
  simp

/-- `rasterCoords h w` is the raster scan: entry `i` is row `h - 1 - i / w`
(top row first) and column `i % w` (left to right). -/
theorem rasterCoords_eq (h w : ℕ) :
    rasterCoords h w
      = (List.range (h * w)).map (fun i => (h - 1 - i / w, i % w)) := by
  by_cases hw : w = 0
  · subst hw
    induction h with
    | zero => rfl
    | succ m ih =>
        rw [rasterCoords_succ]
        simpa using ih
  · have hw' : 0 < w := Nat.pos_of_ne_zero hw
    induction h with
    | zero => simp [rasterCoords]
    | succ m ih =>
        rw [rasterCoords_succ, ih]
        rw [show (m + 1) * w = w + m * w by ring, List.range_add, List.map_append]
        congr 1
        · apply List.map_congr_left
          intro i hi
          have hiw : i < w := List.mem_range.mp hi
          simp [Nat.div_eq_of_lt hiw, Nat.mod_eq_of_lt hiw]
        · rw [List.map_map]
          apply List.map_congr_left
          intro j hj
          simp only [Function.comp]
          have hdiv : (w + j) / w = j / w + 1 := by
            rw [Nat.add_comm w j, Nat.add_div_right _ hw']
          have hmod : (w + j) % w = j % w := Nat.add_mod_left w j
          rw [hdiv, hmod]
          congr 1
          omega

/-- C8: the rendered output begins with the header tokens `P3`, the
width and height, and the maximum channel value 255, followed by exactly
`width × height` pixel triples in raster order (rows top to bottom,
columns left to right); each triple is obtained from the sample-averaged
pixel colour by gamma correction (square root), then clamping, then the
truncating, saturating conversion of `255 ×` each channel, so every
written integer lies in `[0, 255]`. -/
theorem raytracing_ppm_spec (aspect viewport_height : ℝ) (img_height : ℕ)
    (ray_color_fn : Ray → Color) (jit : ℕ × ℕ → ℕ → ℝ × ℝ) :
    (raytracing_ppm aspect img_height viewport_height ray_color_fn jit).magic = "P3"
    ∧ (raytracing_ppm aspect img_height viewport_height ray_color_fn jit).width
        = imgWidth aspect img_height
    ∧ (raytracing_ppm aspect img_height viewport_height ray_color_fn jit).height
        = img_height
    ∧ (raytracing_ppm aspect img_height viewport_height ray_color_fn jit).maxval = 255
    ∧ (raytracing_ppm aspect img_height viewport_height ray_color_fn jit).pixels.length
        = (raytracing_ppm aspect img_height viewport_height ray_color_fn jit).width
          * (raytracing_ppm aspect img_height viewport_height ray_color_fn jit).height
    ∧ (∀ (i : ℕ)
        (hi : i < (raytracing_ppm aspect img_height viewport_height ray_color_fn
          jit).pixels.length),
        (raytracing_ppm aspect img_height viewport_height ray_color_fn jit).pixels[i]
          = displayC (Color.clamp (Color.gamma_correction
              (pixelColor ray_color_fn
                (jit (img_height - 1 - i / imgWidth aspect img_height,
                  i % imgWidth aspect img_height))
                aspect viewport_height (imgWidth aspect img_height) img_height
                (img_height - 1 - i / imgWidth aspect img_height,
                  i % imgWidth aspect img_height)))))
    ∧ ∀ q ∈ (raytracing_ppm aspect img_height viewport_height ray_color_fn
        jit).pixels,
        (0 ≤ q.1 ∧ q.1 ≤ 255) ∧ (0 ≤ q.2.1 ∧ q.2.1 ≤ 255)
          ∧ (0 ≤ q.2.2 ∧ q.2.2 ≤ 255) := by
  have hpixels : (raytracing_ppm aspect img_height viewport_height ray_color_fn
      jit).pixels
      = (List.range (img_height * imgWidth aspect img_height)).map
          (fun i => displayC (Color.clamp (Color.gamma_correction
            (pixelColor ray_color_fn
              (jit (img_height - 1 - i / imgWidth aspect img_height,
                i % imgWidth aspect img_height))
              aspect viewport_height (imgWidth aspect img_height) img_height
              (img_height - 1 - i / imgWidth aspect img_height,
                i % imgWidth aspect img_height))))) := by
    show ((rasterCoords img_height (imgWidth aspect img_height)).map _) = _
    rw [rasterCoords_eq, List.map_map]
    rfl
  refine ⟨rfl, rfl, rfl, rfl, ?_, ?_, ?_⟩
  · rw [hpixels, List.length_map, List.length_range]
    exact Nat.mul_comm _ _
  · intro i hi
    rw [List.getElem_of_eq hpixels hi]
    rw [List.getElem_map, List.getElem_range]
  · intro q hq
    rw [hpixels] at hq
    obtain ⟨p, _, rfl⟩ := List.mem_map.mp hq
    exact ⟨⟨toByte_nonneg _, toByte_le _⟩, ⟨toByte_nonneg _, toByte_le _⟩,
      ⟨toByte_nonneg _, toByte_le _⟩⟩

theorem foldl_add_map_zero (f : ℕ → Color) (hf : ∀ s, f s = Color.mk 0 0 0) :
    ∀ (l : List ℕ) (acc : Color),
      (l.map f).foldl (fun a b => a + b) acc = acc := by
  intro l
  induction l with
  | nil => intro acc; rfl
  | cons x xs ih =>
      intro acc
      simp only [List.map_cons, List.foldl_cons, hf x]
      rw [show acc + Color.mk 0 0 0 = acc by ext <;> simp]
      exact ih acc

theorem pixelColor_const_zero (jit : ℕ → ℝ × ℝ) (aspect vh : ℝ) (w h : ℕ)
    (p : ℕ × ℕ) :
    pixelColor (fun _ => Color.mk 0 0 0) jit aspect vh w h p = Color.mk 0 0 0 := by
  unfold pixelColor
  rw [foldl_add_map_zero _ (fun s => rfl)]
  ext <;> norm_num [div_eq_zero_iff]

/-- Witness for C8 at aspect 2, image height 2 (so width 4, 8 pixels),
with an all-black sample function: the grid has 8 pixel lines and pixel
index 5 is `0 0 0`. -/
theorem raytracing_ppm_spec_witness :
    (raytracing_ppm 2 2 2 (fun _ => Color.mk 0 0 0)
      (fun _ _ => (0, 0))).pixels.length = 8
    ∧ (raytracing_ppm 2 2 2 (fun _ => Color.mk 0 0 0)
        (fun _ _ => (0, 0))).pixels[5]? = some (0, 0, 0) := by
  have hw4 : imgWidth 2 2 = 4 := by
    unfold imgWidth
    rw [show ((2 : ℕ) : ℝ) * 2 = ((4 : ℤ) : ℝ) by norm_num, Int.floor_intCast]
    rfl
  obtain ⟨_, hwidth, hheight, _, hlen, hidx, _⟩ :=
    raytracing_ppm_spec 2 2 2 (fun _ => Color.mk 0 0 0) (fun _ _ => (0, 0))
  have hlen8 : (raytracing_ppm 2 2 2 (fun _ => Color.mk 0 0 0)
      (fun _ _ => (0, 0))).pixels.length = 8 := by
    rw [hlen, hwidth, hheight, hw4]
  refine ⟨hlen8, ?_⟩
  have h5 : 5 < (raytracing_ppm 2 2 2 (fun _ => Color.mk 0 0 0)
      (fun _ _ => (0, 0))).pixels.length := by
    rw [hlen8]
    norm_num
  rw [List.getElem?_eq_getElem h5]
  rw [hidx 5 h5]
  rw [pixelColor_const_zero]
  rw [show Color.gamma_correction (Color.mk 0 0 0) = Color.mk 0 0 0 by
    unfold Color.gamma_correction
    ext <;> simp]
  rw [show Color.clamp (Color.mk 0 0 0) = Color.mk 0 0 0 by
    ext <;> norm_num [Color.clamp]]
  have htb : toByte 0 = 0 := by
    unfold toByte
    norm_num
  rw [show displayC (Color.mk 0 0 0) = ((0 : ℤ), (0 : ℤ), (0 : ℤ)) by
    unfold displayC
    simp only [Color.mk_red, Color.mk_green, Color.mk_blue]
    rw [htb]]

end Raytracer
